import Mathlib

/-!
# Verification of the `speedy-xml` Writer (`src/writer.rs`)

A shallow embedding of the XML writer state machine from `src/writer.rs`.

Modelling conventions:

* Rust byte strings (`&str`, read via `.bytes()`) are `List Nat` of byte
  values; every validation in the source is per-byte or per-byte-substring.
* The `u32` field `depth_and_flags` is a `Nat`.  All the source's additions
  (`+= 0b1`, `+= 0b11`, `+= 0b001`, `+= 0b011`) are plain `Nat` addition,
  which agrees with `u32` arithmetic for every value below `2^32 - 3`;
  no claim concerns counter values that large.  The one subtraction
  (`depth_and_flags -= 0b100` in `write_end`) underflows when the word is
  below `4`; debug builds of the source panic there, which the model
  renders as `Option.none` ("panic") on `write_end`'s result.
* The byte sink (`W: Write`) is modelled as the list of bytes a call
  appends; the pure model's sink never fails, so `Error::Io` cannot arise
  and is omitted from the error type: every error the model produces is
  one of the source's synchronous validation errors.  Every operation
  returns the error (if any), the final writer state, and the bytes the
  call wrote to the sink before returning — faithfully to the order of
  checks and `write_all` calls in the source.
* The modules `lut` (byte classifiers `is_invalid_name`,
  `is_invalid_attribute_name`) and `escape` (`content_escape`,
  `comment_escape`) are not part of the sources under verification; the
  spec treats them as opaque pure functions, so they are parameters
  (bundled in `Env`) and all theorems quantify over them.
-/

namespace SpeedyXml

/-- Writer options, from `writer::Options` (`omit_comments`). -/
structure Options where
  omitComments : Bool
deriving DecidableEq, Repr

/-- The writer state, from `writer::Writer`.  The byte sink is modelled
separately (each operation returns the bytes it appends), so only the
options and the packed `depth_and_flags` word remain. -/
structure Writer where
  options : Options
  depthAndFlags : Nat
deriving DecidableEq, Repr

/-- Bit 0 of the state word: a start tag has been opened with `<name` and
its `>` or `/>` has not been written yet (the source tests
`depth_and_flags & 1 > 0`). -/
def Writer.tagOpen (w : Writer) : Bool := w.depthAndFlags % 2 == 1

/-- Bit 1 of the state word, from `Writer::in_empty_tag`
(`depth_and_flags & 0b10 > 0`): the pending tag came from `write_empty`. -/
def Writer.inEmptyTag (w : Writer) : Bool := w.depthAndFlags / 2 % 2 == 1

/-- The upper bits of the state word: the nesting-depth component. -/
def Writer.depth (w : Writer) : Nat := w.depthAndFlags / 4

/-- Attribute quote characters, from `reader::AttributeQuote`. -/
inductive AttributeQuote where
  | double
  | single
deriving DecidableEq, Repr

/-- The byte value of a quote character (`quote as u8` in the source). -/
def AttributeQuote.byte : AttributeQuote → Nat
  | .double => 34
  | .single => 39

/-- The writer error type, from `writer::Error`.  `Io` is omitted: the
model's sink is infallible, so only validation errors occur (see the
module docstring).  `invalidElementPfx` models the source's invalid
element prefix error variant. -/
inductive Error where
  | invalidElementPfx
  | invalidElementName
  | invalidAttributeName
  | invalidAttributeValue
  | attributeOutsideTag
  | improperlyEscaped
  | invalidCData
  | invalidValue
deriving DecidableEq, Repr

/-- The classifiers and escapers the writer consumes, from the `lut` and
`escape` modules.  Modelled from the spec: those modules are external
collaborators ("a byte-classifier ... an escaper ..."), so they are opaque
parameters here. -/
structure Env where
  isInvalidName : Nat → Bool
  isInvalidAttrName : Nat → Bool
  contentEscape : List Nat → List Nat
  commentEscape : List Nat → List Nat

/-- Result of one write call: the error (if any), the state after the
call, and the bytes the call appended to the sink. -/
abbrev WriteResult := Option Error × Writer × List Nat

/-- Models `prefix.is_some_and(|pfx| pfx.bytes().any(is_invalid_name))`. -/
def badPfx (inv : Nat → Bool) : Option (List Nat) → Bool
  | some p => p.any inv
  | none => false

/-- The bytes a tag writes for its optional `prefix:` part. -/
def pfxBytes : Option (List Nat) → List Nat
  | some p => p ++ [58]
  | none => []

/-- Models `Writer::ensure_tag_closed`: if bit 0 is set, emit `/>` and add
`0b001` when in an empty tag, otherwise emit `>` and add `0b011`. -/
def ensureTagClosed (w : Writer) : Writer × List Nat :=
  if w.depthAndFlags % 2 = 1 then
    if w.inEmptyTag then
      ({ w with depthAndFlags := w.depthAndFlags + 1 }, [47, 62])
    else
      ({ w with depthAndFlags := w.depthAndFlags + 3 }, [62])
  else
    (w, [])

/-- Models `Writer::write_start`. -/
def writeStart (env : Env) (w : Writer) (pfx : Option (List Nat)) (name : List Nat) :
    WriteResult :=
  if badPfx env.isInvalidName pfx then (some .invalidElementPfx, w, [])
  else if name.any env.isInvalidName then (some .invalidElementName, w, [])
  else
    let r := ensureTagClosed w
    (none, { r.1 with depthAndFlags := r.1.depthAndFlags + 1 },
      r.2 ++ [60] ++ pfxBytes pfx ++ name)

/-- Models `Writer::write_empty`.  The source checks only `name`, not the
optional tag prefix. -/
def writeEmpty (env : Env) (w : Writer) (pfx : Option (List Nat)) (name : List Nat) :
    WriteResult :=
  if name.any env.isInvalidName then (some .invalidElementName, w, [])
  else
    let r := ensureTagClosed w
    (none, { r.1 with depthAndFlags := r.1.depthAndFlags + 3 },
      r.2 ++ [60] ++ pfxBytes pfx ++ name)

/-- Models `Writer::write_raw_attribute`.  The third check is, as in the source,
on `name` (`name.bytes().any(|b| [b'\0', quote].contains(&b))`), not on
`value`. -/
def writeRawAttribute (env : Env) (w : Writer) (name : List Nat)
    (q : AttributeQuote) (value : List Nat) : WriteResult :=
  if w.depthAndFlags % 2 = 0 then (some .attributeOutsideTag, w, [])
  else if name.any env.isInvalidAttrName then (some .invalidAttributeName, w, [])
  else if name.any (fun b => b == 0 || b == q.byte) then
    (some .invalidAttributeValue, w, [])
  else
    (none, w, [32] ++ name ++ [61, q.byte] ++ value ++ [q.byte])

/-- Models `Writer::write_attribute`: escape the value, then delegate with
double quotes. -/
def writeAttribute (env : Env) (w : Writer) (name value : List Nat) : WriteResult :=
  writeRawAttribute env w name .double (env.contentEscape value)

/-- Models `Writer::write_end`.  `Option.none` models the debug-build panic of
the unguarded `depth_and_flags -= 0b100` when the word (after tag
closure) is below `4`. -/
def writeEnd (env : Env) (w : Writer) (pfx : Option (List Nat)) (name : List Nat) :
    Option WriteResult :=
  if badPfx env.isInvalidName pfx then some (some .invalidElementPfx, w, [])
  else if name.any env.isInvalidName then some (some .invalidElementName, w, [])
  else
    let r := ensureTagClosed w
    if r.1.depthAndFlags < 4 then none
    else
      some (none, { r.1 with depthAndFlags := r.1.depthAndFlags - 4 },
        r.2 ++ [60, 47] ++ pfxBytes pfx ++ name ++ [62])

/-- Models `Writer::write_raw_text_unchecked`: close any pending tag, then emit
the bytes verbatim. -/
def writeRawTextUnchecked (w : Writer) (text : List Nat) : Writer × List Nat :=
  let r := ensureTagClosed w
  (r.1, r.2 ++ text)

/-- Models `Writer::write_raw_text`: `memchr2(b'\0', b'<', text)` finds the
first byte that is NUL or `<`; the error depends on which byte stands at
that first position. -/
def writeRawText (w : Writer) (text : List Nat) : WriteResult :=
  match text.find? (fun b => b == 0 || b == 60) with
  | some b =>
    (some (if b == 60 then Error.improperlyEscaped else Error.invalidValue), w, [])
  | none =>
    let r := writeRawTextUnchecked w text
    (none, r.1, r.2)

/-- Models `Writer::write_text`: escape, then the unchecked path. -/
def writeText (env : Env) (w : Writer) (content : List Nat) : WriteResult :=
  let r := writeRawTextUnchecked w (env.contentEscape content)
  (none, r.1, r.2)

/-- Models `Writer::write_cdata_unchecked`: close any pending tag, then emit
`<![CDATA[`, the bytes, `]]>`. -/
def writeCdataUnchecked (w : Writer) (text : List Nat) : Writer × List Nat :=
  let r := ensureTagClosed w
  (r.1, r.2 ++ [60, 33, 91, 67, 68, 65, 84, 65, 91] ++ text ++ [93, 93, 62])

/-- Whether `hay` starts with `pat` (byte-wise). -/
def listStartsWith : List Nat → List Nat → Bool
  | _, [] => true
  | [], _ :: _ => false
  | x :: xs, y :: ys => x == y && listStartsWith xs ys

/-- Models `memchr::memmem::find(hay, pat).is_some()`: `pat` occurs as a
contiguous subsequence of `hay`. -/
def containsSub (pat : List Nat) : List Nat → Bool
  | [] => listStartsWith [] pat
  | x :: xs => listStartsWith (x :: xs) pat || containsSub pat xs

/-- Models `Writer::write_cdata`: reject when the text contains `]]>`
(bytes `93, 93, 62`). -/
def writeCdata (w : Writer) (text : List Nat) : WriteResult :=
  if containsSub [93, 93, 62] text then (some .invalidCData, w, [])
  else
    let r := writeCdataUnchecked w text
    (none, r.1, r.2)

/-- Models `Writer::write_raw_comment_unchecked`: close any pending tag, then
emit `<!--`, the bytes, `-->`. -/
def writeRawCommentUnchecked (w : Writer) (text : List Nat) : Writer × List Nat :=
  let r := ensureTagClosed w
  (r.1, r.2 ++ [60, 33, 45, 45] ++ text ++ [45, 45, 62])

/-- Models `Writer::write_raw_comment`: reject when the text contains `-->`
(bytes `45, 45, 62`); with `omit_comments` set, skip the emitting path
(including its tag closure) entirely. -/
def writeRawComment (w : Writer) (text : List Nat) : WriteResult :=
  if containsSub [45, 45, 62] text then (some .improperlyEscaped, w, [])
  else if w.options.omitComments then (none, w, [])
  else
    let r := writeRawCommentUnchecked w text
    (none, r.1, r.2)

/-- Models `Writer::write_comment`: with `omit_comments` unset, escape then take
the unchecked path; otherwise do nothing. -/
def writeComment (env : Env) (w : Writer) (content : List Nat) : WriteResult :=
  if w.options.omitComments then (none, w, [])
  else
    let r := writeRawCommentUnchecked w (env.commentEscape content)
    (none, r.1, r.2)

/-- Models `Writer::finish`: close any pending tag, then hand back the sink. -/
def finish (w : Writer) : Writer × List Nat :=
  ensureTagClosed w

/-- Models `Writer::flush`: close any pending tag, then forward the sink flush. -/
def flush (w : Writer) : Writer × List Nat :=
  ensureTagClosed w

/-- Modelled from the spec: the reader's `AttributeEvent` (accessors
`name()`, `quote()`, `raw_value()`), whose defining module `reader` is not
among the sources under verification. -/
structure AttributeEvent where
  name : List Nat
  quote : AttributeQuote
  rawValue : List Nat
deriving DecidableEq, Repr

/-- Modelled from the spec: the reader's start-tag event payload
(`prefix?`, `name`, `attributes[]`, `is_empty`). -/
structure StartEvent where
  pfx : Option (List Nat)
  name : List Nat
  attributes : List AttributeEvent
  isEmpty : Bool
deriving DecidableEq, Repr

/-- Modelled from the spec: the reader's event union
{Start, Empty, End, Text, CData, Comment, Doctype}, each text-bearing
variant carrying its raw source bytes. -/
inductive Event where
  | start (s : StartEvent)
  | empty (s : StartEvent)
  | endTag (pfx : Option (List Nat)) (name : List Nat)
  | text (t : List Nat)
  | cdata (t : List Nat)
  | comment (t : List Nat)
  | doctype (t : List Nat)
deriving DecidableEq, Repr

/-- Models `Writer::write_attribute_event`: requires bit 0 set, then emits the
attribute with its own quote and raw value bytes verbatim. -/
def writeAttributeEvent (w : Writer) (a : AttributeEvent) : WriteResult :=
  if w.depthAndFlags % 2 = 0 then (some .attributeOutsideTag, w, [])
  else
    (none, w, [32] ++ a.name ++ [61, a.quote.byte] ++ a.rawValue ++ [a.quote.byte])

/-- The attribute loop of `Writer::write_event`: each attribute through
`write_attribute_event`, stopping at (and propagating) the first error,
keeping the bytes already emitted. -/
def writeAttributeEventList (w : Writer) : List AttributeEvent → WriteResult
  | [] => (none, w, [])
  | a :: rest =>
    match writeAttributeEvent w a with
    | (some e, w1, o1) => (some e, w1, o1)
    | (none, w1, o1) =>
      let r := writeAttributeEventList w1 rest
      (r.1, r.2.1, o1 ++ r.2.2)

/-- Models `Writer::write_event`: Start/Empty dispatch on `is_empty()` to
`write_empty`/`write_start` and then replay the attributes; End goes to
`write_end`; Comment, CData, Doctype and Text all take one shared path
that closes any pending tag and emits the payload bytes directly. -/
def writeEvent (env : Env) (w : Writer) : Event → Option WriteResult
  | .start s | .empty s =>
    match (if s.isEmpty then writeEmpty env w s.pfx s.name
           else writeStart env w s.pfx s.name) with
    | (some e, w1, o1) => some (some e, w1, o1)
    | (none, w1, o1) =>
      let r := writeAttributeEventList w1 s.attributes
      some (r.1, r.2.1, o1 ++ r.2.2)
  | .endTag p n => writeEnd env w p n
  | .comment t | .cdata t | .doctype t | .text t =>
    let r := ensureTagClosed w
    some (none, r.1, r.2 ++ t)

/-- The order of operations in `write_raw_text` as the spec sentence
states it ("each first closes any pending open tag, then validates ...
before emitting"): close the pending tag first, then validate, then
emit.  To be compared with `writeRawText`, which follows the source
(validate first, close only on the success path). -/
def writeRawTextSpecOrder (w : Writer) (text : List Nat) : WriteResult :=
  let r := ensureTagClosed w
  match text.find? (fun b => b == 0 || b == 60) with
  | some b =>
    (some (if b == 60 then Error.improperlyEscaped else Error.invalidValue), r.1, r.2)
  | none => (none, r.1, r.2 ++ text)

/-- A concrete instantiation of the external classifiers and escapers,
for evaluating the model on concrete inputs.  Modelled from the spec:
a name byte is invalid when it is the space byte (the spec's name-grammar
examples reject names "containing a space"), and the escapers are the
identity (any escaper works for the concrete inputs used here, which
contain nothing to escape). -/
def envA : Env :=
  { isInvalidName := fun b => decide (b = 32)
    isInvalidAttrName := fun b => decide (b = 32)
    contentEscape := id
    commentEscape := id }

/-- One structural write call, for stating properties of sequences of
calls against a `Writer`. -/
inductive WriteCall where
  | start (pfx : Option (List Nat)) (name : List Nat)
  | empty (pfx : Option (List Nat)) (name : List Nat)
  | endTag (pfx : Option (List Nat)) (name : List Nat)
  | rawAttr (name : List Nat) (q : AttributeQuote) (value : List Nat)
  | attr (name value : List Nat)
  | rawText (t : List Nat)
  | text (t : List Nat)
  | cdata (t : List Nat)
  | rawComment (t : List Nat)
  | comment (t : List Nat)
  | attrEvent (a : AttributeEvent)
  | event (e : Event)
  | flush
deriving DecidableEq

/-- Run one write call against the writer state. -/
def runCall (env : Env) (w : Writer) : WriteCall → Option WriteResult
  | .start p n => some (writeStart env w p n)
  | .empty p n => some (writeEmpty env w p n)
  | .endTag p n => writeEnd env w p n
  | .rawAttr n q v => some (writeRawAttribute env w n q v)
  | .attr n v => some (writeAttribute env w n v)
  | .rawText t => some (writeRawText w t)
  | .text t => some (writeText env w t)
  | .cdata t => some (writeCdata w t)
  | .rawComment t => some (writeRawComment w t)
  | .comment t => some (writeComment env w t)
  | .attrEvent a => some (writeAttributeEvent w a)
  | .event e => writeEvent env w e
  | .flush => some (none, (ensureTagClosed w).1, (ensureTagClosed w).2)

/-- Run a sequence of write calls, requiring every call to succeed
(no validation error, no panic); returns the final state. -/
def runOk (env : Env) (w : Writer) : List WriteCall → Option Writer
  | [] => some w
  | c :: cs =>
    match runCall env w c with
    | some (none, w1, _) => runOk env w1 cs
    | _ => none

/-- Whether a call is a `write_start` or `write_empty` (including the
ones `write_event` dispatches to). -/
def startCount : WriteCall → Nat
  | .start _ _ => 1
  | .empty _ _ => 1
  | .event (.start _) => 1
  | .event (.empty _) => 1
  | _ => 0

/-- Whether a call is a `write_end` (including the ones `write_event`
dispatches to). -/
def endCount : WriteCall → Nat
  | .endTag _ _ => 1
  | .event (.endTag _ _) => 1
  | _ => 0

/-- Total number of start/empty calls in a trace. -/
def startTotal (cs : List WriteCall) : Nat := (cs.map startCount).sum

/-- Total number of end calls in a trace. -/
def endTotal (cs : List WriteCall) : Nat := (cs.map endCount).sum

/-- Derived: the value of the state word after `ensure_tag_closed`.
When bit 0 is set, both closure branches land on the next multiple of 4
(`0b...01 + 0b011` and `0b...11 + 0b001` both carry into the depth
bits); otherwise the word is untouched. -/
def closedWord (n : Nat) : Nat := if n % 2 = 1 then 4 * (n / 4) + 4 else n

/-- Derived: the bytes `ensure_tag_closed` emits. -/
def closedBytes (n : Nat) : List Nat :=
  if n % 2 = 1 then (if n / 2 % 2 = 1 then [47, 62] else [62]) else []

/-! ## Helper lemmas -/

theorem listStartsWith_iff : ∀ (hay pat : List Nat), listStartsWith hay pat = true ↔ pat <+: hay
  | _, [] => by simp [listStartsWith]
  | [], _ :: _ => by simp [listStartsWith]
  | x :: xs, y :: ys => by
    simp only [listStartsWith, Bool.and_eq_true, beq_iff_eq, List.cons_prefix_cons,
      listStartsWith_iff xs ys]
    exact and_congr_left fun _ => eq_comm

theorem containsSub_iff (pat : List Nat) : ∀ hay, containsSub pat hay = true ↔ pat <:+: hay
  | [] => by
    simp [containsSub, listStartsWith_iff]
  | x :: xs => by
    simp only [containsSub, Bool.or_eq_true, listStartsWith_iff, containsSub_iff pat xs,
      List.infix_cons_iff]

theorem find?_middle (p : Nat → Bool) (b : Nat) (hb : p b = true) :
    ∀ (pre suf : List Nat), (∀ x ∈ pre, p x = false) →
      (pre ++ b :: suf).find? p = some b
  | [], suf, _ => by simp [List.find?_cons_of_pos, hb]
  | x :: pre, suf, hok => by
    have hx : p x = false := hok x (by simp)
    show List.find? p (x :: (pre ++ b :: suf)) = some b
    rw [List.find?_cons_of_neg _ (by simp [hx])]
    exact find?_middle p b hb pre suf fun y hy => hok y (by simp [hy])

theorem ensureTagClosed_char (w : Writer) :
    ensureTagClosed w = (⟨w.options, closedWord w.depthAndFlags⟩, closedBytes w.depthAndFlags) := by
  unfold ensureTagClosed
  split
  · next h =>
    split
    · next he =>
      simp only [Writer.inEmptyTag, beq_iff_eq] at he
      simp [closedWord, closedBytes, h, he, Writer.mk.injEq]
      omega
    · next he =>
      simp only [Writer.inEmptyTag, beq_iff_eq] at he
      simp [closedWord, closedBytes, h, he, Writer.mk.injEq]
      omega
  · next h =>
    simp [closedWord, closedBytes, h]

theorem closedWord_arith (n : Nat) (h : n % 4 ≠ 2) :
    closedWord n % 2 = 0 ∧ closedWord n % 4 = 0 ∧ closedWord n / 4 = n / 4 + n % 2 := by
  unfold closedWord; split <;> omega

theorem writeStart_ok {env : Env} {w w' : Writer} {pfx : Option (List Nat)}
    {name o : List Nat} (h : writeStart env w pfx name = (none, w', o)) :
    w' = ⟨w.options, closedWord w.depthAndFlags + 1⟩ ∧
    o = closedBytes w.depthAndFlags ++ [60] ++ pfxBytes pfx ++ name := by
  simp only [writeStart, ensureTagClosed_char] at h
  split at h
  · exact absurd h (by simp)
  · split at h
    · exact absurd h (by simp)
    · simp only [Prod.mk.injEq] at h
      exact ⟨h.2.1.symm, h.2.2.symm⟩

theorem writeStart_err {env : Env} {w w' : Writer} {pfx : Option (List Nat)}
    {name o : List Nat} {e : Error} (h : writeStart env w pfx name = (some e, w', o)) :
    w' = w ∧ o = [] := by
  simp only [writeStart, ensureTagClosed_char] at h
  split at h
  · simp only [Prod.mk.injEq] at h
    exact ⟨h.2.1.symm, h.2.2.symm⟩
  · split at h
    · simp only [Prod.mk.injEq] at h
      exact ⟨h.2.1.symm, h.2.2.symm⟩
    · exact absurd h (by simp)

theorem writeEmpty_ok {env : Env} {w w' : Writer} {pfx : Option (List Nat)}
    {name o : List Nat} (h : writeEmpty env w pfx name = (none, w', o)) :
    w' = ⟨w.options, closedWord w.depthAndFlags + 3⟩ ∧
    o = closedBytes w.depthAndFlags ++ [60] ++ pfxBytes pfx ++ name := by
  simp only [writeEmpty, ensureTagClosed_char] at h
  split at h
  · exact absurd h (by simp)
  · simp only [Prod.mk.injEq] at h
    exact ⟨h.2.1.symm, h.2.2.symm⟩

theorem writeEmpty_err {env : Env} {w w' : Writer} {pfx : Option (List Nat)}
    {name o : List Nat} {e : Error} (h : writeEmpty env w pfx name = (some e, w', o)) :
    w' = w ∧ o = [] := by
  simp only [writeEmpty, ensureTagClosed_char] at h
  split at h
  · simp only [Prod.mk.injEq] at h
    exact ⟨h.2.1.symm, h.2.2.symm⟩
  · exact absurd h (by simp)

theorem writeEnd_ok {env : Env} {w w' : Writer} {pfx : Option (List Nat)}
    {name o : List Nat} (h : writeEnd env w pfx name = some (none, w', o)) :
    4 ≤ closedWord w.depthAndFlags ∧
    w' = ⟨w.options, closedWord w.depthAndFlags - 4⟩ ∧
    o = closedBytes w.depthAndFlags ++ [60, 47] ++ pfxBytes pfx ++ name ++ [62] := by
  simp only [writeEnd, ensureTagClosed_char] at h
  split at h
  · exact absurd h (by simp)
  · split at h
    · exact absurd h (by simp)
    · split at h
      · exact absurd h (by simp)
      · next hlt =>
        simp only [Option.some.injEq, Prod.mk.injEq] at h
        exact ⟨by omega, h.2.1.symm, h.2.2.symm⟩

theorem writeEnd_err {env : Env} {w w' : Writer} {pfx : Option (List Nat)}
    {name o : List Nat} {e : Error} (h : writeEnd env w pfx name = some (some e, w', o)) :
    w' = w ∧ o = [] := by
  simp only [writeEnd, ensureTagClosed_char] at h
  split at h
  · simp only [Option.some.injEq, Prod.mk.injEq] at h
    exact ⟨h.2.1.symm, h.2.2.symm⟩
  · split at h
    · simp only [Option.some.injEq, Prod.mk.injEq] at h
      exact ⟨h.2.1.symm, h.2.2.symm⟩
    · split at h
      · exact absurd h (by simp)
      · exact absurd h (by simp)

theorem writeRawText_ok {w w' : Writer} {text o : List Nat}
    (h : writeRawText w text = (none, w', o)) :
    w' = ⟨w.options, closedWord w.depthAndFlags⟩ ∧
    o = closedBytes w.depthAndFlags ++ text := by
  simp only [writeRawText, writeRawTextUnchecked, ensureTagClosed_char] at h
  split at h
  · exact absurd h (by simp)
  · simp only [Prod.mk.injEq] at h
    exact ⟨h.2.1.symm, h.2.2.symm⟩

theorem writeText_ok {env : Env} {w w' : Writer} {content o : List Nat}
    (h : writeText env w content = (none, w', o)) :
    w' = ⟨w.options, closedWord w.depthAndFlags⟩ := by
  simp only [writeText, writeRawTextUnchecked, ensureTagClosed_char] at h
  simp only [Prod.mk.injEq] at h
  exact h.2.1.symm

theorem writeCdata_ok {w w' : Writer} {text o : List Nat}
    (h : writeCdata w text = (none, w', o)) :
    w' = ⟨w.options, closedWord w.depthAndFlags⟩ := by
  simp only [writeCdata, writeCdataUnchecked, ensureTagClosed_char] at h
  split at h
  · exact absurd h (by simp)
  · simp only [Prod.mk.injEq] at h
    exact h.2.1.symm

theorem writeRawComment_ok {w w' : Writer} {text o : List Nat}
    (h : writeRawComment w text = (none, w', o)) :
    w' = w ∨ w' = ⟨w.options, closedWord w.depthAndFlags⟩ := by
  simp only [writeRawComment, writeRawCommentUnchecked, ensureTagClosed_char] at h
  split at h
  · exact absurd h (by simp)
  · split at h
    · simp only [Prod.mk.injEq] at h
      exact Or.inl h.2.1.symm
    · simp only [Prod.mk.injEq] at h
      exact Or.inr h.2.1.symm

theorem writeComment_ok {env : Env} {w w' : Writer} {content o : List Nat}
    (h : writeComment env w content = (none, w', o)) :
    w' = w ∨ w' = ⟨w.options, closedWord w.depthAndFlags⟩ := by
  simp only [writeComment, writeRawCommentUnchecked, ensureTagClosed_char] at h
  split at h
  · simp only [Prod.mk.injEq] at h
    exact Or.inl h.2.1.symm
  · simp only [Prod.mk.injEq] at h
    exact Or.inr h.2.1.symm

theorem writeRawAttribute_state {env : Env} {w : Writer} {name value : List Nat}
    {q : AttributeQuote} : (writeRawAttribute env w name q value).2.1 = w := by
  unfold writeRawAttribute
  split
  · rfl
  · split
    · rfl
    · split <;> rfl

theorem writeAttributeEvent_state {w : Writer} {a : AttributeEvent} :
    (writeAttributeEvent w a).2.1 = w := by
  unfold writeAttributeEvent
  split <;> rfl

theorem writeAttributeEventList_state (l : List AttributeEvent) :
    ∀ w : Writer, (writeAttributeEventList w l).2.1 = w := by
  induction l with
  | nil => intro w; rfl
  | cons a rest ih =>
    intro w
    unfold writeAttributeEventList
    split
    · next e w1 o1 heq =>
      have := writeAttributeEvent_state (w := w) (a := a)
      rw [heq] at this
      exact this
    · next w1 o1 heq =>
      have hst := writeAttributeEvent_state (w := w) (a := a)
      rw [heq] at hst
      simp only [ih w1]
      exact hst

theorem writeEvent_ok_word {env : Env} {w w' : Writer} {ev : Event} {o : List Nat}
    (hwf : w.depthAndFlags % 4 ≠ 2)
    (h : writeEvent env w ev = some (none, w', o)) :
    w'.depthAndFlags % 4 ≠ 2 ∧
    w'.depthAndFlags / 4 + w'.depthAndFlags % 2 + endCount (.event ev) =
      w.depthAndFlags / 4 + w.depthAndFlags % 2 + startCount (.event ev) := by
  obtain ⟨ha1, ha2, ha3⟩ := closedWord_arith w.depthAndFlags hwf
  cases ev with
  | start s =>
    simp only [writeEvent] at h
    split at h
    · simp at h
    · next w1 o1 heq =>
      simp only [Option.some.injEq, Prod.mk.injEq] at h
      obtain ⟨-, hw', -⟩ := h
      rw [writeAttributeEventList_state s.attributes w1] at hw'
      subst hw'
      by_cases hie : s.isEmpty
      · rw [if_pos hie] at heq
        obtain ⟨h1, -⟩ := writeEmpty_ok heq
        subst h1
        simp only [startCount, endCount]
        omega
      · rw [if_neg hie] at heq
        obtain ⟨h1, -⟩ := writeStart_ok heq
        subst h1
        simp only [startCount, endCount]
        omega
  | empty s =>
    simp only [writeEvent] at h
    split at h
    · simp at h
    · next w1 o1 heq =>
      simp only [Option.some.injEq, Prod.mk.injEq] at h
      obtain ⟨-, hw', -⟩ := h
      rw [writeAttributeEventList_state s.attributes w1] at hw'
      subst hw'
      by_cases hie : s.isEmpty
      · rw [if_pos hie] at heq
        obtain ⟨h1, -⟩ := writeEmpty_ok heq
        subst h1
        simp only [startCount, endCount]
        omega
      · rw [if_neg hie] at heq
        obtain ⟨h1, -⟩ := writeStart_ok heq
        subst h1
        simp only [startCount, endCount]
        omega
  | endTag p n =>
    simp only [writeEvent] at h
    obtain ⟨hge, h1, -⟩ := writeEnd_ok h
    subst h1
    simp only [startCount, endCount]
    omega
  | text t =>
    simp only [writeEvent, ensureTagClosed_char, Option.some.injEq, Prod.mk.injEq] at h
    obtain ⟨-, hw', -⟩ := h
    subst hw'
    simp only [startCount, endCount]
    omega
  | cdata t =>
    simp only [writeEvent, ensureTagClosed_char, Option.some.injEq, Prod.mk.injEq] at h
    obtain ⟨-, hw', -⟩ := h
    subst hw'
    simp only [startCount, endCount]
    omega
  | comment t =>
    simp only [writeEvent, ensureTagClosed_char, Option.some.injEq, Prod.mk.injEq] at h
    obtain ⟨-, hw', -⟩ := h
    subst hw'
    simp only [startCount, endCount]
    omega
  | doctype t =>
    simp only [writeEvent, ensureTagClosed_char, Option.some.injEq, Prod.mk.injEq] at h
    obtain ⟨-, hw', -⟩ := h
    subst hw'
    simp only [startCount, endCount]
    omega

theorem runCall_ok_word {env : Env} {w w' : Writer} {c : WriteCall} {o : List Nat}
    (hwf : w.depthAndFlags % 4 ≠ 2)
    (h : runCall env w c = some (none, w', o)) :
    w'.depthAndFlags % 4 ≠ 2 ∧
    w'.depthAndFlags / 4 + w'.depthAndFlags % 2 + endCount c =
      w.depthAndFlags / 4 + w.depthAndFlags % 2 + startCount c := by
  obtain ⟨ha1, ha2, ha3⟩ := closedWord_arith w.depthAndFlags hwf
  cases c with
  | start p n =>
    have heq : writeStart env w p n = (none, w', o) := by simpa [runCall] using h
    obtain ⟨h1, -⟩ := writeStart_ok heq
    subst h1
    have hs : startCount (WriteCall.start p n) = 1 := rfl
    have he : endCount (WriteCall.start p n) = 0 := rfl
    simp only; omega
  | empty p n =>
    have heq : writeEmpty env w p n = (none, w', o) := by simpa [runCall] using h
    obtain ⟨h1, -⟩ := writeEmpty_ok heq
    subst h1
    have hs : startCount (WriteCall.empty p n) = 1 := rfl
    have he : endCount (WriteCall.empty p n) = 0 := rfl
    simp only; omega
  | endTag p n =>
    have heq : writeEnd env w p n = some (none, w', o) := by simpa [runCall] using h
    obtain ⟨hge, h1, -⟩ := writeEnd_ok heq
    subst h1
    have hs : startCount (WriteCall.endTag p n) = 0 := rfl
    have he : endCount (WriteCall.endTag p n) = 1 := rfl
    simp only; omega
  | rawAttr n q v =>
    have heq : writeRawAttribute env w n q v = (none, w', o) := by simpa [runCall] using h
    have hst := @writeRawAttribute_state env w n v q
    rw [heq] at hst
    simp only at hst
    subst hst
    have hs : startCount (WriteCall.rawAttr n q v) = 0 := rfl
    have he : endCount (WriteCall.rawAttr n q v) = 0 := rfl
    omega
  | attr n v =>
    have heq : writeRawAttribute env w n .double (env.contentEscape v) = (none, w', o) := by
      simpa [runCall, writeAttribute] using h
    have hst := @writeRawAttribute_state env w n (env.contentEscape v) AttributeQuote.double
    rw [heq] at hst
    simp only at hst
    subst hst
    have hs : startCount (WriteCall.attr n v) = 0 := rfl
    have he : endCount (WriteCall.attr n v) = 0 := rfl
    omega
  | rawText t =>
    have heq : writeRawText w t = (none, w', o) := by simpa [runCall] using h
    obtain ⟨h1, -⟩ := writeRawText_ok heq
    subst h1
    have hs : startCount (WriteCall.rawText t) = 0 := rfl
    have he : endCount (WriteCall.rawText t) = 0 := rfl
    simp only; omega
  | text t =>
    have heq : writeText env w t = (none, w', o) := by simpa [runCall] using h
    have h1 := writeText_ok heq
    subst h1
    have hs : startCount (WriteCall.text t) = 0 := rfl
    have he : endCount (WriteCall.text t) = 0 := rfl
    simp only; omega
  | cdata t =>
    have heq : writeCdata w t = (none, w', o) := by simpa [runCall] using h
    have h1 := writeCdata_ok heq
    subst h1
    have hs : startCount (WriteCall.cdata t) = 0 := rfl
    have he : endCount (WriteCall.cdata t) = 0 := rfl
    simp only; omega
  | rawComment t =>
    have heq : writeRawComment w t = (none, w', o) := by simpa [runCall] using h
    have hs : startCount (WriteCall.rawComment t) = 0 := rfl
    have he : endCount (WriteCall.rawComment t) = 0 := rfl
    rcases writeRawComment_ok heq with h1 | h1
    · subst h1; omega
    · subst h1; simp only; omega
  | comment t =>
    have heq : writeComment env w t = (none, w', o) := by simpa [runCall] using h
    have hs : startCount (WriteCall.comment t) = 0 := rfl
    have he : endCount (WriteCall.comment t) = 0 := rfl
    rcases writeComment_ok heq with h1 | h1
    · subst h1; omega
    · subst h1; simp only; omega
  | attrEvent a =>
    have heq : writeAttributeEvent w a = (none, w', o) := by simpa [runCall] using h
    have hst := writeAttributeEvent_state (w := w) (a := a)
    rw [heq] at hst
    simp only at hst
    subst hst
    have hs : startCount (WriteCall.attrEvent a) = 0 := rfl
    have he : endCount (WriteCall.attrEvent a) = 0 := rfl
    omega
  | event ev =>
    have heq : writeEvent env w ev = some (none, w', o) := by simpa [runCall] using h
    exact writeEvent_ok_word hwf heq
  | flush =>
    have h' : ((none : Option Error), (ensureTagClosed w).1, (ensureTagClosed w).2) =
        (none, w', o) := by simpa [runCall] using h
    rw [ensureTagClosed_char] at h'
    simp only [Prod.mk.injEq] at h'
    obtain ⟨-, hw', -⟩ := h'
    subst hw'
    have hs : startCount WriteCall.flush = 0 := rfl
    have he : endCount WriteCall.flush = 0 := rfl
    simp only; omega

theorem runOk_word (env : Env) :
    ∀ (cs : List WriteCall) (w w' : Writer),
      w.depthAndFlags % 4 ≠ 2 → runOk env w cs = some w' →
      w'.depthAndFlags % 4 ≠ 2 ∧
      w'.depthAndFlags / 4 + w'.depthAndFlags % 2 + endTotal cs =
        w.depthAndFlags / 4 + w.depthAndFlags % 2 + startTotal cs := by
  intro cs
  induction cs with
  | nil =>
    intro w w' hwf h
    simp only [runOk, Option.some.inj h] at *
    exact ⟨by simpa using hwf, by simp [endTotal, startTotal]⟩
  | cons c rest ih =>
    intro w w' hwf h
    unfold runOk at h
    split at h
    · next w1 o1 heq =>
      obtain ⟨hwf1, hstep⟩ := runCall_ok_word hwf heq
      obtain ⟨hwf2, hrest⟩ := ih w1 w' hwf1 h
      refine ⟨hwf2, ?_⟩
      simp only [startTotal, endTotal, List.map_cons, List.sum_cons] at *
      omega
    · exact absurd h (by simp)

theorem closedWord_even (n : Nat) : closedWord n % 2 = 0 ∨ closedWord n = n := by
  unfold closedWord; split
  · exact Or.inl (by omega)
  · exact Or.inr rfl

theorem closedWord_even_of_odd (n : Nat) (h : n % 2 = 1) : closedWord n % 2 = 0 := by
  unfold closedWord; rw [if_pos h]; omega

theorem closedWord_parity (n : Nat) : closedWord n % 2 = 0 ∨ (n % 2 = 0 ∧ closedWord n = n) := by
  unfold closedWord; split
  · exact Or.inl (by omega)
  · next h => exact Or.inr ⟨by omega, rfl⟩

theorem closedWord_always_even (n : Nat) : closedWord n % 2 = 0 := by
  rcases closedWord_parity n with h | ⟨h0, he⟩
  · exact h
  · rw [he]; exact h0

theorem writeRawText_err {w w' : Writer} {t o : List Nat} {e : Error}
    (h : writeRawText w t = (some e, w', o)) : w' = w ∧ o = [] := by
  unfold writeRawText at h
  split at h
  · simp only [Prod.mk.injEq] at h
    exact ⟨h.2.1.symm, h.2.2.symm⟩
  · exact absurd h (by simp [writeRawTextUnchecked])

theorem writeCdata_err {w w' : Writer} {t o : List Nat} {e : Error}
    (h : writeCdata w t = (some e, w', o)) : w' = w ∧ o = [] := by
  unfold writeCdata at h
  split at h
  · simp only [Prod.mk.injEq] at h
    exact ⟨h.2.1.symm, h.2.2.symm⟩
  · exact absurd h (by simp [writeCdataUnchecked])

theorem writeRawComment_err {w w' : Writer} {t o : List Nat} {e : Error}
    (h : writeRawComment w t = (some e, w', o)) : w' = w ∧ o = [] := by
  unfold writeRawComment at h
  split at h
  · simp only [Prod.mk.injEq] at h
    exact ⟨h.2.1.symm, h.2.2.symm⟩
  · split at h
    · exact absurd h (by simp)
    · exact absurd h (by simp [writeRawCommentUnchecked])

theorem writeComment_err {env : Env} {w w' : Writer} {t o : List Nat} {e : Error}
    (h : writeComment env w t = (some e, w', o)) : w' = w ∧ o = [] := by
  unfold writeComment at h
  split at h
  · exact absurd h (by simp)
  · exact absurd h (by simp [writeRawCommentUnchecked])

theorem writeText_err {env : Env} {w w' : Writer} {t o : List Nat} {e : Error}
    (h : writeText env w t = (some e, w', o)) : w' = w ∧ o = [] :=
  absurd h (by simp [writeText, writeRawTextUnchecked])

theorem writeRawAttribute_err {env : Env} {w w' : Writer} {name value o : List Nat}
    {q : AttributeQuote} {e : Error}
    (h : writeRawAttribute env w name q value = (some e, w', o)) : w' = w ∧ o = [] := by
  unfold writeRawAttribute at h
  split at h
  · simp only [Prod.mk.injEq] at h
    exact ⟨h.2.1.symm, h.2.2.symm⟩
  · split at h
    · simp only [Prod.mk.injEq] at h
      exact ⟨h.2.1.symm, h.2.2.symm⟩
    · split at h
      · simp only [Prod.mk.injEq] at h
        exact ⟨h.2.1.symm, h.2.2.symm⟩
      · exact absurd h (by simp)

theorem writeAttributeEvent_err {w w' : Writer} {a : AttributeEvent} {o : List Nat}
    {e : Error} (h : writeAttributeEvent w a = (some e, w', o)) : w' = w ∧ o = [] := by
  unfold writeAttributeEvent at h
  split at h
  · simp only [Prod.mk.injEq] at h
    exact ⟨h.2.1.symm, h.2.2.symm⟩
  · exact absurd h (by simp)

theorem writeStart_ok_odd {env : Env} {w w' : Writer} {pfx : Option (List Nat)}
    {name o : List Nat} (h : writeStart env w pfx name = (none, w', o)) :
    w'.depthAndFlags % 2 = 1 := by
  obtain ⟨h1, -⟩ := writeStart_ok h
  subst h1
  show (closedWord w.depthAndFlags + 1) % 2 = 1
  have := closedWord_always_even w.depthAndFlags
  omega

theorem writeEmpty_ok_odd {env : Env} {w w' : Writer} {pfx : Option (List Nat)}
    {name o : List Nat} (h : writeEmpty env w pfx name = (none, w', o)) :
    w'.depthAndFlags % 2 = 1 := by
  obtain ⟨h1, -⟩ := writeEmpty_ok h
  subst h1
  show (closedWord w.depthAndFlags + 3) % 2 = 1
  have := closedWord_always_even w.depthAndFlags
  omega

theorem writeAttributeEventList_err_none (l : List AttributeEvent) :
    ∀ w : Writer, w.depthAndFlags % 2 = 1 → (writeAttributeEventList w l).1 = none := by
  induction l with
  | nil => intro w _; rfl
  | cons a rest ih =>
    intro w hw
    unfold writeAttributeEventList
    split
    · next e0 w1 o1 heq =>
      exfalso
      unfold writeAttributeEvent at heq
      rw [if_neg (by omega)] at heq
      simp at heq
    · next w1 o1 heq =>
      have hst := writeAttributeEvent_state (w := w) (a := a)
      rw [heq] at hst
      simp only at hst
      subst hst
      exact ih w1 hw

/-! ## Claim theorems -/

/-- Claim C1 (code bug): the spec says `write_raw_attribute` rejects a
`value` containing a NUL byte or the chosen quote character with
`InvalidAttributeValue` before any bytes are emitted, and the function's
own doc comment promises an error for an improperly escaped value — but
the source's third check reads `name.bytes()`, not `value.bytes()`.  A
call whose value is exactly the chosen quote byte (`"` = 34), or a NUL
byte, succeeds inside a start tag and emits the malformed attribute
bytes (` a="""` resp. ` a="<NUL>"`). -/
theorem writeRawAttribute_value_not_validated :
    writeRawAttribute envA ⟨⟨false⟩, 1⟩ [97] .double [34] =
      (none, ⟨⟨false⟩, 1⟩, [32, 97, 61, 34, 34, 34]) ∧
    writeRawAttribute envA ⟨⟨false⟩, 1⟩ [97] .double [0] =
      (none, ⟨⟨false⟩, 1⟩, [32, 97, 61, 34, 0, 34]) ∧
    writeRawAttribute envA ⟨⟨false⟩, 1⟩ [34] .double [118] =
      (some Error.invalidAttributeValue, ⟨⟨false⟩, 1⟩, []) := by decide

/-- Claim C7: `write_cdata(text)` fails with `InvalidCData` exactly when
`text` contains the substring `]]>` (bytes `93, 93, 62`), and on success
emits `<![CDATA[`, `text`, `]]>` after any pending-tag closure;
`write_raw_comment(text)` (with `omit_comments` unset) fails with
`ImproperlyEscaped` exactly when `text` contains `-->` (bytes
`45, 45, 62`) — so a text containing `--` but not `-->` succeeds — and on
success emits `<!--`, `text`, `-->` after any pending-tag closure. -/
theorem cdata_comment_forbidden_sequences (w : Writer) (text : List Nat) :
    (([93, 93, 62] <:+: text → writeCdata w text = (some Error.invalidCData, w, [])) ∧
     (¬ [93, 93, 62] <:+: text →
        writeCdata w text =
          (none, ⟨w.options, closedWord w.depthAndFlags⟩,
            closedBytes w.depthAndFlags ++ [60, 33, 91, 67, 68, 65, 84, 65, 91] ++
              text ++ [93, 93, 62]))) ∧
    (w.options.omitComments = false →
      ([45, 45, 62] <:+: text →
        writeRawComment w text = (some Error.improperlyEscaped, w, [])) ∧
      (¬ [45, 45, 62] <:+: text →
        writeRawComment w text =
          (none, ⟨w.options, closedWord w.depthAndFlags⟩,
            closedBytes w.depthAndFlags ++ [60, 33, 45, 45] ++ text ++ [45, 45, 62]))) := by
  refine ⟨⟨?_, ?_⟩, fun homit => ⟨?_, ?_⟩⟩
  · intro hin
    have hc : containsSub [93, 93, 62] text = true := (containsSub_iff _ _).mpr hin
    simp [writeCdata, hc]
  · intro hnin
    have hc : ¬ containsSub [93, 93, 62] text = true := fun hc =>
      hnin ((containsSub_iff _ _).mp hc)
    simp [writeCdata, writeCdataUnchecked, hc, ensureTagClosed_char]
  · intro hin
    have hc : containsSub [45, 45, 62] text = true := (containsSub_iff _ _).mpr hin
    simp [writeRawComment, hc]
  · intro hnin
    have hc : ¬ containsSub [45, 45, 62] text = true := fun hc =>
      hnin ((containsSub_iff _ _).mp hc)
    simp [writeRawComment, writeRawCommentUnchecked, hc, homit, ensureTagClosed_char]

theorem cdata_comment_forbidden_sequences_witness :
    writeCdata ⟨⟨false⟩, 0⟩ [120, 93, 93, 62, 121] =
      (some Error.invalidCData, ⟨⟨false⟩, 0⟩, []) ∧
    writeRawComment ⟨⟨false⟩, 0⟩ [97, 45, 45, 98] =
      (none, ⟨⟨false⟩, 0⟩, [60, 33, 45, 45, 97, 45, 45, 98, 45, 45, 62]) ∧
    writeRawComment ⟨⟨false⟩, 0⟩ [97, 45, 45, 62, 98] =
      (some Error.improperlyEscaped, ⟨⟨false⟩, 0⟩, []) := by
  refine ⟨(cdata_comment_forbidden_sequences _ _).1.1 (by decide), ?_,
    ((cdata_comment_forbidden_sequences _ _).2 rfl).1 (by decide)⟩
  have h := ((cdata_comment_forbidden_sequences ⟨⟨false⟩, 0⟩ [97, 45, 45, 98]).2 rfl).2
    (by decide)
  simpa [closedWord, closedBytes] using h

/-- Claim C8: `write_empty` applies the same name validation as
`write_start` (failing with `InvalidElementName` when any byte of the
name is classified invalid) but never validates the tag prefix: it can
never return the invalid-prefix error, whereas `write_start` and
`write_end` return it whenever the prefix contains an invalid name
byte. -/
theorem writeEmpty_no_pfx_validation (env : Env) (w : Writer)
    (pfx : Option (List Nat)) (name p : List Nat) :
    (writeEmpty env w pfx name).1 ≠ some Error.invalidElementPfx ∧
    (name.any env.isInvalidName = true →
      writeEmpty env w pfx name = (some Error.invalidElementName, w, [])) ∧
    (badPfx env.isInvalidName pfx = false → name.any env.isInvalidName = true →
      writeStart env w pfx name = (some Error.invalidElementName, w, [])) ∧
    (p.any env.isInvalidName = true →
      writeStart env w (some p) name = (some Error.invalidElementPfx, w, []) ∧
      writeEnd env w (some p) name = some (some Error.invalidElementPfx, w, [])) := by
  refine ⟨?_, ?_, ?_, ?_⟩
  · unfold writeEmpty
    split
    · simp
    · simp
  · intro hbad
    simp [writeEmpty, hbad]
  · intro hp hbad
    simp [writeStart, hp, hbad]
  · intro hp
    constructor
    · simp [writeStart, badPfx, hp]
    · simp [writeEnd, badPfx, hp]

theorem writeEmpty_no_pfx_validation_witness :
    (writeEmpty envA ⟨⟨false⟩, 0⟩ (some [32]) [97]).1 ≠ some Error.invalidElementPfx ∧
    writeStart envA ⟨⟨false⟩, 0⟩ (some [32]) [97] =
      (some Error.invalidElementPfx, ⟨⟨false⟩, 0⟩, []) ∧
    writeEnd envA ⟨⟨false⟩, 0⟩ (some [32]) [97] =
      some (some Error.invalidElementPfx, ⟨⟨false⟩, 0⟩, []) := by
  have h := writeEmpty_no_pfx_validation envA ⟨⟨false⟩, 0⟩ (some [32]) [97] [32]
  exact ⟨h.1, (h.2.2.2 (by decide)).1, (h.2.2.2 (by decide)).2⟩

/-- Claim C9: with `omit_comments` set, `write_comment` succeeds and
appends zero bytes for every content, and `write_raw_comment` still
performs its `-->` validation but emits zero bytes on success. -/
theorem omit_comments_suppresses_emission (env : Env) (w : Writer)
    (content text : List Nat) (h : w.options.omitComments = true) :
    writeComment env w content = (none, w, []) ∧
    ([45, 45, 62] <:+: text →
      writeRawComment w text = (some Error.improperlyEscaped, w, [])) ∧
    (¬ [45, 45, 62] <:+: text → writeRawComment w text = (none, w, [])) := by
  refine ⟨by simp [writeComment, h], fun hin => ?_, fun hnin => ?_⟩
  · have hc : containsSub [45, 45, 62] text = true := (containsSub_iff _ _).mpr hin
    simp [writeRawComment, hc]
  · have hc : ¬ containsSub [45, 45, 62] text = true := fun hc =>
      hnin ((containsSub_iff _ _).mp hc)
    simp [writeRawComment, hc, h]

theorem omit_comments_suppresses_emission_witness :
    writeComment envA ⟨⟨true⟩, 1⟩ [104, 105] = (none, ⟨⟨true⟩, 1⟩, []) ∧
    writeRawComment ⟨⟨true⟩, 1⟩ [97, 45, 45, 62] =
      (some Error.improperlyEscaped, ⟨⟨true⟩, 1⟩, []) ∧
    writeRawComment ⟨⟨true⟩, 1⟩ [97] = (none, ⟨⟨true⟩, 1⟩, []) := by
  have h := omit_comments_suppresses_emission envA ⟨⟨true⟩, 1⟩ [104, 105] [97, 45, 45, 62] rfl
  have h2 := omit_comments_suppresses_emission envA ⟨⟨true⟩, 1⟩ [104, 105] [97] rfl
  exact ⟨h.1, h.2.1 (by decide), h2.2.2 (by decide)⟩

/-- Claim C10: `write_end` is total only when an element is open.  With a
valid prefix and name, if no start tag is pending and the depth
component is zero the call reaches the unguarded `depth_and_flags -=
0b100` with a word below 4 and panics (models the debug-build underflow
panic) instead of returning an error; with depth at least 1 or a pending
start tag the subtraction is safe and the call returns normally. -/
theorem writeEnd_underflow_panic (env : Env) (w : Writer) (pfx : Option (List Nat))
    (name : List Nat) (hp : badPfx env.isInvalidName pfx = false)
    (hn : name.any env.isInvalidName = false) :
    (w.tagOpen = false → w.depth = 0 → writeEnd env w pfx name = none) ∧
    (1 ≤ w.depth ∨ w.tagOpen = true → (writeEnd env w pfx name).isSome = true) := by
  constructor
  · intro ht hd
    simp only [Writer.tagOpen, beq_eq_false_iff_ne, ne_eq] at ht
    simp only [Writer.depth] at hd
    have hcw : closedWord w.depthAndFlags < 4 := by
      unfold closedWord
      rw [if_neg ht]
      omega
    simp [writeEnd, hp, hn, ensureTagClosed_char, hcw]
  · intro hd
    simp only [Writer.depth, Writer.tagOpen, beq_iff_eq] at hd
    have hcw : ¬ closedWord w.depthAndFlags < 4 := by
      unfold closedWord
      rcases hd with hd | hd
      · split <;> omega
      · rw [if_pos hd]; omega
    simp [writeEnd, hp, hn, ensureTagClosed_char, hcw]

/-- Claim C5: for every write operation and every input, a validation
error (the model's only error kind — the modelled sink is infallible, so
`Io` cannot occur) is returned with zero bytes appended to the sink and
the writer state exactly as before the call. -/
theorem validation_error_rollback (env : Env) (w : Writer) (pfx : Option (List Nat))
    (name value t : List Nat) (q : AttributeQuote) (a : AttributeEvent) (ev : Event)
    (e : Error) :
    ((writeStart env w pfx name).1 = some e →
      writeStart env w pfx name = (some e, w, [])) ∧
    ((writeEmpty env w pfx name).1 = some e →
      writeEmpty env w pfx name = (some e, w, [])) ∧
    ((writeRawAttribute env w name q value).1 = some e →
      writeRawAttribute env w name q value = (some e, w, [])) ∧
    ((writeAttribute env w name value).1 = some e →
      writeAttribute env w name value = (some e, w, [])) ∧
    (∀ r : WriteResult, writeEnd env w pfx name = some r → r.1 = some e →
      r = (some e, w, [])) ∧
    ((writeRawText w t).1 = some e → writeRawText w t = (some e, w, [])) ∧
    ((writeText env w t).1 = some e → writeText env w t = (some e, w, [])) ∧
    ((writeCdata w t).1 = some e → writeCdata w t = (some e, w, [])) ∧
    ((writeRawComment w t).1 = some e → writeRawComment w t = (some e, w, [])) ∧
    ((writeComment env w t).1 = some e → writeComment env w t = (some e, w, [])) ∧
    ((writeAttributeEvent w a).1 = some e →
      writeAttributeEvent w a = (some e, w, [])) ∧
    (∀ r : WriteResult, writeEvent env w ev = some r → r.1 = some e →
      r = (some e, w, [])) := by
  refine ⟨?_, ?_, ?_, ?_, ?_, ?_, ?_, ?_, ?_, ?_, ?_, ?_⟩
  · intro h
    rcases hr : writeStart env w pfx name with ⟨r1, w2, o2⟩
    rw [hr] at h
    simp only at h
    subst h
    obtain ⟨hw, ho⟩ := writeStart_err hr
    rw [hw, ho]
  · intro h
    rcases hr : writeEmpty env w pfx name with ⟨r1, w2, o2⟩
    rw [hr] at h
    simp only at h
    subst h
    obtain ⟨hw, ho⟩ := writeEmpty_err hr
    rw [hw, ho]
  · intro h
    rcases hr : writeRawAttribute env w name q value with ⟨r1, w2, o2⟩
    rw [hr] at h
    simp only at h
    subst h
    obtain ⟨hw, ho⟩ := writeRawAttribute_err hr
    rw [hw, ho]
  · intro h
    rcases hr : writeAttribute env w name value with ⟨r1, w2, o2⟩
    rw [hr] at h
    simp only at h
    subst h
    obtain ⟨hw, ho⟩ := writeRawAttribute_err (h := by
      rw [← hr]; rfl)
    rw [hw, ho]
  · intro r hr h
    rcases r with ⟨r1, w2, o2⟩
    simp only at h
    subst h
    obtain ⟨hw, ho⟩ := writeEnd_err hr
    rw [hw, ho]
  · intro h
    rcases hr : writeRawText w t with ⟨r1, w2, o2⟩
    rw [hr] at h
    simp only at h
    subst h
    obtain ⟨hw, ho⟩ := writeRawText_err hr
    rw [hw, ho]
  · intro h
    rcases hr : writeText env w t with ⟨r1, w2, o2⟩
    rw [hr] at h
    simp only at h
    subst h
    obtain ⟨hw, ho⟩ := writeText_err hr
    rw [hw, ho]
  · intro h
    rcases hr : writeCdata w t with ⟨r1, w2, o2⟩
    rw [hr] at h
    simp only at h
    subst h
    obtain ⟨hw, ho⟩ := writeCdata_err hr
    rw [hw, ho]
  · intro h
    rcases hr : writeRawComment w t with ⟨r1, w2, o2⟩
    rw [hr] at h
    simp only at h
    subst h
    obtain ⟨hw, ho⟩ := writeRawComment_err hr
    rw [hw, ho]
  · intro h
    rcases hr : writeComment env w t with ⟨r1, w2, o2⟩
    rw [hr] at h
    simp only at h
    subst h
    obtain ⟨hw, ho⟩ := writeComment_err hr
    rw [hw, ho]
  · intro h
    rcases hr : writeAttributeEvent w a with ⟨r1, w2, o2⟩
    rw [hr] at h
    simp only at h
    subst h
    obtain ⟨hw, ho⟩ := writeAttributeEvent_err hr
    rw [hw, ho]
  · intro r hr h
    cases ev with
    | start s =>
      simp only [writeEvent] at hr
      split at hr
      · next e0 w1 o1 heq =>
        have hr' : r = (some e0, w1, o1) := (Option.some.inj hr).symm
        subst hr'
        simp only at h
        have he : e0 = e := Option.some.inj h
        subst he
        by_cases hie : s.isEmpty
        · rw [if_pos hie] at heq
          obtain ⟨hw, ho⟩ := writeEmpty_err heq
          rw [hw, ho]
        · rw [if_neg hie] at heq
          obtain ⟨hw, ho⟩ := writeStart_err heq
          rw [hw, ho]
      · next w1 o1 heq =>
        exfalso
        have hodd : w1.depthAndFlags % 2 = 1 := by
          by_cases hie : s.isEmpty
          · rw [if_pos hie] at heq
            exact writeEmpty_ok_odd heq
          · rw [if_neg hie] at heq
            exact writeStart_ok_odd heq
        have hnone := writeAttributeEventList_err_none s.attributes w1 hodd
        have hr' : r = ((writeAttributeEventList w1 s.attributes).1,
            (writeAttributeEventList w1 s.attributes).2.1,
            o1 ++ (writeAttributeEventList w1 s.attributes).2.2) :=
          (Option.some.inj hr).symm
        subst hr'
        simp only at h
        rw [hnone] at h
        exact Option.noConfusion h
    | empty s =>
      simp only [writeEvent] at hr
      split at hr
      · next e0 w1 o1 heq =>
        have hr' : r = (some e0, w1, o1) := (Option.some.inj hr).symm
        subst hr'
        simp only at h
        have he : e0 = e := Option.some.inj h
        subst he
        by_cases hie : s.isEmpty
        · rw [if_pos hie] at heq
          obtain ⟨hw, ho⟩ := writeEmpty_err heq
          rw [hw, ho]
        · rw [if_neg hie] at heq
          obtain ⟨hw, ho⟩ := writeStart_err heq
          rw [hw, ho]
      · next w1 o1 heq =>
        exfalso
        have hodd : w1.depthAndFlags % 2 = 1 := by
          by_cases hie : s.isEmpty
          · rw [if_pos hie] at heq
            exact writeEmpty_ok_odd heq
          · rw [if_neg hie] at heq
            exact writeStart_ok_odd heq
        have hnone := writeAttributeEventList_err_none s.attributes w1 hodd
        have hr' : r = ((writeAttributeEventList w1 s.attributes).1,
            (writeAttributeEventList w1 s.attributes).2.1,
            o1 ++ (writeAttributeEventList w1 s.attributes).2.2) :=
          (Option.some.inj hr).symm
        subst hr'
        simp only at h
        rw [hnone] at h
        exact Option.noConfusion h
    | endTag p n =>
      simp only [writeEvent] at hr
      rcases r with ⟨r1, w2, o2⟩
      simp only at h
      subst h
      obtain ⟨hw, ho⟩ := writeEnd_err hr
      rw [hw, ho]
    | text t0 =>
      simp only [writeEvent] at hr
      have hr' : r = (none, (ensureTagClosed w).1, (ensureTagClosed w).2 ++ t0) :=
        (Option.some.inj hr).symm
      subst hr'
      simp only at h
      exact Option.noConfusion h
    | cdata t0 =>
      simp only [writeEvent] at hr
      have hr' : r = (none, (ensureTagClosed w).1, (ensureTagClosed w).2 ++ t0) :=
        (Option.some.inj hr).symm
      subst hr'
      simp only at h
      exact Option.noConfusion h
    | comment t0 =>
      simp only [writeEvent] at hr
      have hr' : r = (none, (ensureTagClosed w).1, (ensureTagClosed w).2 ++ t0) :=
        (Option.some.inj hr).symm
      subst hr'
      simp only at h
      exact Option.noConfusion h
    | doctype t0 =>
      simp only [writeEvent] at hr
      have hr' : r = (none, (ensureTagClosed w).1, (ensureTagClosed w).2 ++ t0) :=
        (Option.some.inj hr).symm
      subst hr'
      simp only at h
      exact Option.noConfusion h

theorem validation_error_rollback_witness :
    writeStart envA ⟨⟨false⟩, 0⟩ (some [32]) [97] =
      (some Error.invalidElementPfx, ⟨⟨false⟩, 0⟩, []) ∧
    writeRawAttribute envA ⟨⟨false⟩, 0⟩ [97] AttributeQuote.double [118] =
      (some Error.attributeOutsideTag, ⟨⟨false⟩, 0⟩, []) ∧
    writeRawText ⟨⟨false⟩, 1⟩ [60] = (some Error.improperlyEscaped, ⟨⟨false⟩, 1⟩, []) := by
  refine ⟨(validation_error_rollback envA ⟨⟨false⟩, 0⟩ (some [32]) [97] [] []
      AttributeQuote.double ⟨[], AttributeQuote.double, []⟩ (Event.text [])
      Error.invalidElementPfx).1 (by decide),
    (validation_error_rollback envA ⟨⟨false⟩, 0⟩ none [97] [118] []
      AttributeQuote.double ⟨[], AttributeQuote.double, []⟩ (Event.text [])
      Error.attributeOutsideTag).2.2.1 (by decide),
    (validation_error_rollback envA ⟨⟨false⟩, 1⟩ none [] [] [60]
      AttributeQuote.double ⟨[], AttributeQuote.double, []⟩ (Event.text [])
      Error.improperlyEscaped).2.2.2.2.2.1 (by decide)⟩

theorem writeEnd_underflow_panic_witness :
    writeEnd envA ⟨⟨false⟩, 0⟩ none [97] = none ∧
    (writeEnd envA ⟨⟨false⟩, 4⟩ none [97]).isSome = true ∧
    (writeEnd envA ⟨⟨false⟩, 1⟩ none [97]).isSome = true := by
  refine ⟨(writeEnd_underflow_panic envA ⟨⟨false⟩, 0⟩ none [97] rfl rfl).1
      (by decide) (by decide),
    (writeEnd_underflow_panic envA ⟨⟨false⟩, 4⟩ none [97] rfl rfl).2 (Or.inl (by decide)),
    (writeEnd_underflow_panic envA ⟨⟨false⟩, 1⟩ none [97] rfl rfl).2 (Or.inr (by decide))⟩

/-- Claim C2 counterexample: a successful `write_empty` followed by a
successful `write_raw_text` — the latter closes the pending empty tag
with `/>` — leaves the depth component at 1, although the trace contains
no `write_start` at all (so the claim's count of pending unclosed
`write_start` calls is 0): closing an empty tag's pending `<name` with
`/>` does change the depth. -/
theorem empty_closure_changes_depth :
    runOk envA ⟨⟨false⟩, 0⟩ [WriteCall.empty none [97], WriteCall.rawText [120]] =
      some ⟨⟨false⟩, 4⟩ ∧
    Writer.depth ⟨⟨false⟩, 4⟩ = 1 ∧
    startTotal [WriteCall.empty none [97], WriteCall.rawText [120]] =
      startTotal [WriteCall.empty none [97]] := by decide

/-- Claim C2 (amended): the stored depth increments whenever a pending
tag is closed — by `>` for a `write_start` tag or by `/>` for a
`write_empty` tag, the `+= 0b001` carry incrementing depth in the empty
case as well — and decrements on `write_end`; no other operation changes
it.  Hence after any successful call sequence from a fresh writer, depth
plus the pending-tag bit equals the number of `write_start` and
`write_empty` calls (including those dispatched through `write_event`)
minus the number of `write_end` calls. -/
theorem depth_counts_all_closures (env : Env) (opts : Options) (cs : List WriteCall)
    (w' : Writer) (h : runOk env ⟨opts, 0⟩ cs = some w') :
    w'.depth + (if w'.tagOpen then 1 else 0) + endTotal cs = startTotal cs := by
  obtain ⟨-, hw⟩ := runOk_word env cs ⟨opts, 0⟩ w'
    (by show (0 : Nat) % 4 ≠ 2; omega) h
  have h0 : (⟨opts, 0⟩ : Writer).depthAndFlags = 0 := rfl
  rw [h0] at hw
  have hb : (if w'.tagOpen then 1 else 0) = w'.depthAndFlags % 2 := by
    simp only [Writer.tagOpen]
    by_cases hp : w'.depthAndFlags % 2 = 1
    · simp [hp]
    · have hz : w'.depthAndFlags % 2 = 0 := by omega
      simp [hz]
  rw [hb]
  simp only [Writer.depth]
  omega

theorem depth_counts_all_closures_witness :
    Writer.depth ⟨⟨false⟩, 0⟩ + (if Writer.tagOpen ⟨⟨false⟩, 0⟩ then 1 else 0) +
        endTotal [WriteCall.start none [97], WriteCall.endTag none [97]] =
      startTotal [WriteCall.start none [97], WriteCall.endTag none [97]] :=
  depth_counts_all_closures envA ⟨false⟩
    [WriteCall.start none [97], WriteCall.endTag none [97]] ⟨⟨false⟩, 0⟩ (by decide)

/-- Claim C4 counterexample: closing a pending empty tag (state word
`0b11`: tag-open and empty-tag flags set, depth 0) emits `/>` but does
NOT leave the depth unchanged: the word becomes 4, i.e. depth 1. -/
theorem empty_closure_depth_not_preserved :
    ensureTagClosed ⟨⟨false⟩, 3⟩ = (⟨⟨false⟩, 4⟩, [47, 62]) ∧
    Writer.depth ⟨⟨false⟩, 4⟩ ≠ Writer.depth ⟨⟨false⟩, 3⟩ := by decide

/-- Claim C4 (amended): tag closure: if the tag-open flag is clear,
`ensure_tag_closed` does nothing; if it is set, the writer emits `/>`
and clears both flags when the empty-tag flag was set, or emits `>` and
clears the tag-open flag when not — and in BOTH cases the depth
component increments by one (the `/>` branch's `+= 0b001` carries into
the depth bits).  After any closure the tag-open flag is clear, so no
further attribute write succeeds for that tag; the raw text, CDATA and
comment writers (the latter when it emits), and `finish`/`flush`, all
leave the tag-open flag clear on success. -/
theorem tag_closure_behavior (env : Env) (w : Writer) (name value t : List Nat)
    (q : AttributeQuote) (a : AttributeEvent) :
    (w.tagOpen = false → ensureTagClosed w = (w, [])) ∧
    (w.tagOpen = true → w.inEmptyTag = true →
      (ensureTagClosed w).2 = [47, 62] ∧
      (ensureTagClosed w).1.tagOpen = false ∧
      (ensureTagClosed w).1.inEmptyTag = false ∧
      (ensureTagClosed w).1.depth = w.depth + 1) ∧
    (w.tagOpen = true → w.inEmptyTag = false →
      (ensureTagClosed w).2 = [62] ∧
      (ensureTagClosed w).1.tagOpen = false ∧
      (ensureTagClosed w).1.inEmptyTag = false ∧
      (ensureTagClosed w).1.depth = w.depth + 1) ∧
    (w.tagOpen = false →
      (writeRawAttribute env w name q value).1 = some Error.attributeOutsideTag ∧
      (writeAttributeEvent w a).1 = some Error.attributeOutsideTag) ∧
    ((writeRawText w t).1 = none → ((writeRawText w t).2.1).tagOpen = false) ∧
    ((writeCdata w t).1 = none → ((writeCdata w t).2.1).tagOpen = false) ∧
    (w.options.omitComments = false → (writeRawComment w t).1 = none →
      ((writeRawComment w t).2.1).tagOpen = false) ∧
    ((finish w).1.tagOpen = false) ∧ ((flush w).1.tagOpen = false) := by
  have hcw := closedWord_always_even w.depthAndFlags
  have hopen : ∀ u : Writer, u.depthAndFlags % 2 = 0 → u.tagOpen = false := by
    intro u hu
    simp [Writer.tagOpen, beq_eq_false_iff_ne]
    omega
  refine ⟨?_, ?_, ?_, ?_, ?_, ?_, ?_, ?_, ?_⟩
  · intro ht
    simp only [Writer.tagOpen, beq_eq_false_iff_ne, ne_eq] at ht
    unfold ensureTagClosed
    rw [if_neg ht]
  · intro ht he
    simp only [Writer.tagOpen, beq_iff_eq] at ht
    simp only [Writer.inEmptyTag, beq_iff_eq] at he
    rw [ensureTagClosed_char]
    refine ⟨by simp [closedBytes, ht, he], hopen _ ?_, ?_, ?_⟩
    · show closedWord w.depthAndFlags % 2 = 0
      exact hcw
    · show (closedWord w.depthAndFlags / 2 % 2 == 1) = false
      simp only [beq_eq_false_iff_ne, ne_eq]
      unfold closedWord
      rw [if_pos ht]
      omega
    · show closedWord w.depthAndFlags / 4 = w.depthAndFlags / 4 + 1
      unfold closedWord
      rw [if_pos ht]
      omega
  · intro ht he
    simp only [Writer.tagOpen, beq_iff_eq] at ht
    simp only [Writer.inEmptyTag, beq_eq_false_iff_ne, ne_eq] at he
    rw [ensureTagClosed_char]
    refine ⟨by simp [closedBytes, ht, he], hopen _ hcw, ?_, ?_⟩
    · show (closedWord w.depthAndFlags / 2 % 2 == 1) = false
      simp only [beq_eq_false_iff_ne, ne_eq]
      unfold closedWord
      rw [if_pos ht]
      omega
    · show closedWord w.depthAndFlags / 4 = w.depthAndFlags / 4 + 1
      unfold closedWord
      rw [if_pos ht]
      omega
  · intro ht
    simp only [Writer.tagOpen, beq_eq_false_iff_ne, ne_eq] at ht
    have h0 : w.depthAndFlags % 2 = 0 := by omega
    constructor
    · simp [writeRawAttribute, h0]
    · simp [writeAttributeEvent, h0]
  · intro h1
    rcases hr : writeRawText w t with ⟨r1, w2, o2⟩
    rw [hr] at h1
    simp only at h1
    subst h1
    obtain ⟨hw, -⟩ := writeRawText_ok hr
    subst hw
    exact hopen _ hcw
  · intro h1
    rcases hr : writeCdata w t with ⟨r1, w2, o2⟩
    rw [hr] at h1
    simp only at h1
    subst h1
    have hw := writeCdata_ok hr
    subst hw
    exact hopen _ hcw
  · intro homit h1
    rcases hr : writeRawComment w t with ⟨r1, w2, o2⟩
    rw [hr] at h1
    simp only at h1
    subst h1
    rcases writeRawComment_ok hr with hw | hw
    · subst hw
      -- with omit_comments unset, a successful raw comment emits, which
      -- closes the tag; in this branch the state is unchanged, which can
      -- only come from the omit branch — rule it out
      unfold writeRawComment at hr
      split at hr
      · simp at hr
      · split at hr
        · next hcond => rw [homit] at hcond; exact absurd hcond (by simp)
        · simp only [writeRawCommentUnchecked, ensureTagClosed_char, Prod.mk.injEq] at hr
          obtain ⟨-, hw2, -⟩ := hr
          rw [← hw2]
          exact hopen _ hcw
    · subst hw
      exact hopen _ hcw
  · exact hopen _ (by rw [finish, ensureTagClosed_char]; exact hcw)
  · exact hopen _ (by rw [flush, ensureTagClosed_char]; exact hcw)

theorem tag_closure_behavior_witness :
    (ensureTagClosed ⟨⟨false⟩, 3⟩).2 = [47, 62] ∧
    (ensureTagClosed ⟨⟨false⟩, 3⟩).1.tagOpen = false ∧
    (ensureTagClosed ⟨⟨false⟩, 3⟩).1.inEmptyTag = false ∧
    (ensureTagClosed ⟨⟨false⟩, 3⟩).1.depth = Writer.depth ⟨⟨false⟩, 3⟩ + 1 ∧
    (writeRawAttribute envA ⟨⟨false⟩, 4⟩ [97] AttributeQuote.double [118]).1 =
      some Error.attributeOutsideTag := by
  have h := tag_closure_behavior envA ⟨⟨false⟩, 3⟩ [] [] [] AttributeQuote.double
    ⟨[], AttributeQuote.double, []⟩
  have h2 := tag_closure_behavior envA ⟨⟨false⟩, 4⟩ [97] [118] [] AttributeQuote.double
    ⟨[], AttributeQuote.double, []⟩
  obtain ⟨hb, ho, hie, hd⟩ := h.2.1 (by decide) (by decide)
  exact ⟨hb, ho, hie, hd, (h2.2.2.2.1 (by decide)).1⟩

/-- Claim C6 counterexample: with a pending open start tag (word 1),
`write_raw_text` on the single byte `<` (60) rejects BEFORE closing the
pending tag — no bytes are emitted and the tag stays open — whereas the
claimed order (close any pending tag first, then validate) would emit
`>` and close the tag: the source's order and the claimed order
disagree at this input. -/
theorem writeRawText_validates_before_closing :
    writeRawText ⟨⟨false⟩, 1⟩ [60] = (some Error.improperlyEscaped, ⟨⟨false⟩, 1⟩, []) ∧
    writeRawTextSpecOrder ⟨⟨false⟩, 1⟩ [60] =
      (some Error.improperlyEscaped, ⟨⟨false⟩, 4⟩, [62]) ∧
    writeRawText ⟨⟨false⟩, 1⟩ [60] ≠ writeRawTextSpecOrder ⟨⟨false⟩, 1⟩ [60] := by decide

/-- Claim C6 (amended): `write_raw_text(text)` validates FIRST: if the
earliest byte of `text` that is NUL or `<` is `<` it fails with
`ImproperlyEscaped`, if it is NUL it fails with `InvalidValue`, in both
cases emitting nothing and leaving any pending tag open; only when
`text` contains neither byte does it close any pending open tag and emit
`text`'s bytes verbatim with no surrounding delimiters. -/
theorem writeRawText_behavior (w : Writer) (text pre suf : List Nat) :
    ((∀ b ∈ text, b ≠ 0 ∧ b ≠ 60) →
      writeRawText w text =
        (none, ⟨w.options, closedWord w.depthAndFlags⟩,
          closedBytes w.depthAndFlags ++ text)) ∧
    ((∀ b ∈ pre, b ≠ 0 ∧ b ≠ 60) → text = pre ++ 60 :: suf →
      writeRawText w text = (some Error.improperlyEscaped, w, [])) ∧
    ((∀ b ∈ pre, b ≠ 0 ∧ b ≠ 60) → text = pre ++ 0 :: suf →
      writeRawText w text = (some Error.invalidValue, w, [])) := by
  refine ⟨fun hok => ?_, fun hpre heq => ?_, fun hpre heq => ?_⟩
  · have hf : text.find? (fun b => b == 0 || b == 60) = none := by
      rw [List.find?_eq_none]
      intro x hx
      have hb := hok x hx
      simp [hb.1, hb.2]
    simp [writeRawText, hf, writeRawTextUnchecked, ensureTagClosed_char]
  · subst heq
    have hf : (pre ++ 60 :: suf).find? (fun b => b == 0 || b == 60) = some 60 := by
      apply find?_middle _ _ (by simp)
      intro x hx
      have hb := hpre x hx
      simp [hb.1, hb.2]
    simp [writeRawText, hf]
  · subst heq
    have hf : (pre ++ 0 :: suf).find? (fun b => b == 0 || b == 60) = some 0 := by
      apply find?_middle _ _ (by simp)
      intro x hx
      have hb := hpre x hx
      simp [hb.1, hb.2]
    simp [writeRawText, hf]

theorem writeRawText_behavior_witness :
    writeRawText ⟨⟨false⟩, 1⟩ [97, 60, 98] =
      (some Error.improperlyEscaped, ⟨⟨false⟩, 1⟩, []) ∧
    writeRawText ⟨⟨false⟩, 1⟩ [97, 0, 98] =
      (some Error.invalidValue, ⟨⟨false⟩, 1⟩, []) := by
  refine ⟨(writeRawText_behavior ⟨⟨false⟩, 1⟩ [97, 60, 98] [97] [98]).2.1
      (by decide) (by decide),
    (writeRawText_behavior ⟨⟨false⟩, 1⟩ [97, 0, 98] [97] [98]).2.2
      (by decide) (by decide)⟩

/-- Claim C3 counterexample: a Comment event is NOT routed through the
raw comment path: with `omit_comments` set, `write_event` on a comment
event still emits the payload bytes (while `write_comment` and
`write_raw_comment` emit nothing), and with `omit_comments` unset a
comment payload containing `-->` (which `write_raw_comment` rejects with
`ImproperlyEscaped`) is emitted verbatim with no validation. -/
theorem writeEvent_comment_not_raw_path :
    writeEvent envA ⟨⟨true⟩, 0⟩ (Event.comment [120]) = some (none, ⟨⟨true⟩, 0⟩, [120]) ∧
    writeComment envA ⟨⟨true⟩, 0⟩ [120] = (none, ⟨⟨true⟩, 0⟩, []) ∧
    writeRawComment ⟨⟨true⟩, 0⟩ [120] = (none, ⟨⟨true⟩, 0⟩, []) ∧
    writeEvent envA ⟨⟨false⟩, 0⟩ (Event.comment [45, 45, 62]) =
      some (none, ⟨⟨false⟩, 0⟩, [45, 45, 62]) ∧
    (writeRawComment ⟨⟨false⟩, 0⟩ [45, 45, 62]).1 = some Error.improperlyEscaped := by
  decide

/-- Claim C3 (amended): `write_event` dispatches Start/Empty events to
`write_empty` (when `is_empty`) or `write_start` and then replays each
attribute through `write_attribute_event`, which re-emits the
attribute's own quote and raw value byte-for-byte without re-escaping;
End events go to `write_end`; Text, CData, Doctype AND Comment events
all go to one shared path that closes any pending tag and emits the
payload bytes verbatim — so Comment events bypass `write_raw_comment`:
they get no `-->` validation and `omit_comments` has no effect on
them. -/
theorem writeEvent_dispatch (env : Env) (w : Writer) (s : StartEvent)
    (pfx : Option (List Nat)) (name t : List Nat) (a : AttributeEvent) :
    (writeEvent env w (Event.comment t) =
      some (none, ⟨w.options, closedWord w.depthAndFlags⟩,
        closedBytes w.depthAndFlags ++ t)) ∧
    (writeEvent env w (Event.cdata t) = writeEvent env w (Event.comment t) ∧
     writeEvent env w (Event.doctype t) = writeEvent env w (Event.comment t) ∧
     writeEvent env w (Event.text t) = writeEvent env w (Event.comment t)) ∧
    (writeEvent env w (Event.endTag pfx name) = writeEnd env w pfx name) ∧
    (writeEvent env w (Event.empty s) = writeEvent env w (Event.start s)) ∧
    (∀ e0 w1 o1, s.isEmpty = false → writeStart env w s.pfx s.name = (some e0, w1, o1) →
      writeEvent env w (Event.start s) = some (some e0, w1, o1)) ∧
    (∀ w1 o1, s.isEmpty = false → writeStart env w s.pfx s.name = (none, w1, o1) →
      writeEvent env w (Event.start s) =
        some ((writeAttributeEventList w1 s.attributes).1, w1,
          o1 ++ (writeAttributeEventList w1 s.attributes).2.2)) ∧
    (∀ e0 w1 o1, s.isEmpty = true → writeEmpty env w s.pfx s.name = (some e0, w1, o1) →
      writeEvent env w (Event.start s) = some (some e0, w1, o1)) ∧
    (∀ w1 o1, s.isEmpty = true → writeEmpty env w s.pfx s.name = (none, w1, o1) →
      writeEvent env w (Event.start s) =
        some ((writeAttributeEventList w1 s.attributes).1, w1,
          o1 ++ (writeAttributeEventList w1 s.attributes).2.2)) ∧
    (w.tagOpen = true → writeAttributeEvent w a =
      (none, w, [32] ++ a.name ++ [61, a.quote.byte] ++ a.rawValue ++ [a.quote.byte])) := by
  refine ⟨?_, ⟨rfl, rfl, rfl⟩, rfl, rfl, ?_, ?_, ?_, ?_, ?_⟩
  · simp [writeEvent, ensureTagClosed_char]
  · intro e0 w1 o1 hie heq
    simp only [writeEvent, hie, Bool.false_eq_true, if_false, heq]
  · intro w1 o1 hie heq
    simp only [writeEvent, hie, Bool.false_eq_true, if_false, heq,
      writeAttributeEventList_state s.attributes w1]
  · intro e0 w1 o1 hie heq
    simp only [writeEvent, hie, if_true, heq]
  · intro w1 o1 hie heq
    simp only [writeEvent, hie, if_true, heq,
      writeAttributeEventList_state s.attributes w1]
  · intro ht
    simp only [Writer.tagOpen, beq_iff_eq] at ht
    unfold writeAttributeEvent
    rw [if_neg (by omega)]

theorem writeEvent_dispatch_witness :
    writeEvent envA ⟨⟨false⟩, 0⟩ (Event.start ⟨none, [97], [⟨[98], AttributeQuote.single,
        [99]⟩], false⟩) =
      some (none, ⟨⟨false⟩, 1⟩, [60, 97, 32, 98, 61, 39, 99, 39]) ∧
    writeAttributeEvent ⟨⟨false⟩, 1⟩ ⟨[98], AttributeQuote.single, [99]⟩ =
      (none, ⟨⟨false⟩, 1⟩, [32, 98, 61, 39, 99, 39]) := by
  constructor
  · have h := (writeEvent_dispatch envA ⟨⟨false⟩, 0⟩
      ⟨none, [97], [⟨[98], AttributeQuote.single, [99]⟩], false⟩ none [] []
      ⟨[], AttributeQuote.double, []⟩).2.2.2.2.2.1 ⟨⟨false⟩, 1⟩ [60, 97] rfl (by decide)
    simpa using h
  · exact (writeEvent_dispatch envA ⟨⟨false⟩, 1⟩ ⟨none, [], [], false⟩ none [] []
      ⟨[98], AttributeQuote.single, [99]⟩).2.2.2.2.2.2.2.2 (by decide)

end SpeedyXml
